import Mathlib

/-!
Verification of GeodeticCartesianCoordinates (src/GeoCartConversion.py).

The Python module converts between Earth-centered Cartesian coordinates and
geodetic coordinates on a rotational ellipsoid (Ligas & Banasik 2011).  The
embedding below models the numeric code over the exact reals `ℝ`; where a
claim is specifically about IEEE-754 special values produced by numpy
(division by zero giving `inf`/`NaN`), a small `FloatVal` type models those
values explicitly.  The external root finder `scipy.optimize.root` is not part
of the repository; it is abstracted as a function (`Solver`) supplied with the
residual, the Jacobian and the starting point, returning a final iterate, a
success flag and the number of residual evaluations.
-/

namespace GeoCart

noncomputable section

/-- Embeds `step3` (src/GeoCartConversion.py lines 23-29): latitude in degrees
and signed height, computed from `H = a/b`, the projected ellipse point
`(pE, zE)` and the original meridian-plane point `(pg, zg)`.  The code computes
`h = sqrt((p_E-p_G)^2 + (z_E-z_G)^2)` and negates it when
`p_G + |z_G| < p_E + |z_E|`. -/
def step3 (H pE zE pg zg : ℝ) : ℝ × ℝ :=
  let phi := Real.arctan (H * H * zE / pE) * (180 / Real.pi)
  let h0 := Real.sqrt ((pE - pg) ^ 2 + (zE - zg) ^ 2)
  (phi, if pg + |zg| < pE + |zE| then -h0 else h0)

/-- Embeds `lambda_2` (line 51): the half-angle longitude formula
`2*arctan(y/(x+w))*(180/pi)` with `w = sqrt(x*x+y*y)`, over exact reals. -/
def lambda2R (x y : ℝ) : ℝ :=
  2 * Real.arctan (y / (x + Real.sqrt (x * x + y * y))) * (180 / Real.pi)

/-- Embeds `p_G` (line 59): the meridian-plane radial coordinate
`sqrt(x*x + y*y)`. -/
def pG (x y : ℝ) : ℝ := Real.sqrt (x * x + y * y)

/-- Embeds the residual closure `fun` (lines 66-72), as the value it returns
(its trace printing and global-counter increment are modelled separately for
the effect claim).  `G = b/a`, `H = a/b`, `K = a*b` as on line 63. -/
def residFun (a b pg zg : ℝ) (v : ℝ × ℝ) : ℝ × ℝ :=
  let G := b / a
  let H := a / b
  let K := a * b
  ((v.1 - pg) * H * v.2 - (v.2 - zg) * G * v.1,
   G * v.1 * v.1 + H * v.2 * v.2 - K)

/-- Embeds the Jacobian closure `jac` (lines 75-78), as a pair of rows. -/
def jacFun (a b pg zg : ℝ) (v : ℝ × ℝ) : (ℝ × ℝ) × (ℝ × ℝ) :=
  let G := b / a
  let H := a / b
  ((H * v.2 - (v.2 - zg) * G, (v.1 - pg) * H - G * v.1),
   (2 * G * v.1, 2 * H * v.2))

/-- Embeds the starting point (lines 81-83):
`r = 1/sqrt(p_G*p_G + z_G*z_G)`, `p_start = a*p_G*r`, `z_start = b*z_G*r`. -/
def startPoint (a b pg zg : ℝ) : ℝ × ℝ :=
  let r := 1 / Real.sqrt (pg * pg + zg * zg)
  (a * pg * r, b * zg * r)

/-- Models the value returned by `scipy.optimize.root` (line 85): the final
iterate `.x`, the `success` flag (present on the scipy result object but never
read by the code), and the number of residual evaluations, which is what the
global counter `iters` ends up holding. -/
structure SolverOut where
  x1 : ℝ
  x2 : ℝ
  success : Bool
  nfev : ℕ

/-- An abstract general-purpose 2D root finder: it receives the residual
function, the Jacobian and the starting point, and produces a `SolverOut`. -/
def Solver : Type :=
  ((ℝ × ℝ) → ℝ × ℝ) → ((ℝ × ℝ) → (ℝ × ℝ) × (ℝ × ℝ)) → ℝ × ℝ → SolverOut

/-- Embeds the part of `xyzllh` after the solver call (lines 85-95) given the
solver output: line 85 reads only `.x` from the scipy result (the `success`
flag is never consulted), line 88 applies `step3`, and line 95 returns
`(phi, lambda_2, h, iters)`. -/
def xyzllhFromOut (out : SolverOut) (x y z a b : ℝ) : ℝ × ℝ × ℝ × ℕ :=
  let t := step3 (a / b) out.x1 out.x2 (pG x y) z
  (t.1, lambda2R x y, t.2, out.nfev)

/-- Embeds `xyzllh` (lines 31-95) with `scipy.optimize.root` abstracted as the
solver `s`.  The defaults `a = 6378`, `b = 6356` of the Python signature are
passed explicitly here.  The function computes the meridian reduction
`p_G = sqrt(x*x+y*y)`, `z_G = z`, hands `fun`, `jac` and the scaled starting
point to the solver, and post-processes with `step3`. -/
def xyzllh (s : Solver) (x y z a b : ℝ) : ℝ × ℝ × ℝ × ℕ :=
  xyzllhFromOut
    (s (residFun a b (pG x y) z) (jacFun a b (pG x y) z)
      (startPoint a b (pG x y) z)) x y z a b

/-- Embeds `e_2` (line 103): first eccentricity squared `1 - (b/a)^2`. -/
def e2 (a b : ℝ) : ℝ := 1 - (b / a) ^ 2

/-- Embeds `N` (line 104): radius of curvature in the prime vertical,
`a / sqrt(1 - e_2 * sin(lat)^2)` with `lat` given in degrees and converted to
radians as on line 101. -/
def Nrad (a b lat : ℝ) : ℝ :=
  a / Real.sqrt (1 - e2 a b * Real.sin (lat * (Real.pi / 180)) ^ 2)

/-- Embeds `llhxyz` (lines 98-110): the closed-form geodetic-to-Cartesian
conversion.  Angles in degrees, converted to radians on line 101. -/
def llhxyz (lat lon h a b : ℝ) : ℝ × ℝ × ℝ :=
  let latr := lat * (Real.pi / 180)
  let lonr := lon * (Real.pi / 180)
  let N := Nrad a b lat
  ((N + h) * Real.cos latr * Real.cos lonr,
   (N + h) * Real.cos latr * Real.sin lonr,
   ((1 - e2 a b) * N + h) * Real.sin latr)

/-- Written from the spec's words (section 4.3): the orthogonality residual
`f1(p_E, z_E) = (p_E − p_G)·H·z_E − (z_E − z_G)·G·p_E` with `G = b/a`,
`H = a/b`. -/
def f1Spec (a b pg zg pe ze : ℝ) : ℝ :=
  (pe - pg) * (a / b) * ze - (ze - zg) * (b / a) * pe

/-- Written from the spec's words (section 4.3): the ellipse-membership
residual `f2(p_E, z_E) = G·p_E² + H·z_E² − K` with `G = b/a`, `H = a/b`,
`K = a·b`. -/
def f2Spec (a b pe ze : ℝ) : ℝ :=
  (b / a) * pe ^ 2 + (a / b) * ze ^ 2 - a * b

/-- Written from the spec's words (section 4.3): the Jacobian
`[[H·z_E − (z_E − z_G)·G, (p_E − p_G)·H − G·p_E], [2·G·p_E, 2·H·z_E]]`. -/
def jacSpec (a b pg zg pe ze : ℝ) : (ℝ × ℝ) × (ℝ × ℝ) :=
  (((a / b) * ze - (ze - zg) * (b / a), (pe - pg) * (a / b) - (b / a) * pe),
   (2 * (b / a) * pe, 2 * (a / b) * ze))

/-- Written from the spec's words (section 4.3): the radially scaled initial
guess `r = 1/sqrt(p_G² + z_G²)`, `p_start = a·p_G·r`, `z_start = b·z_G·r`. -/
def startSpec (a b pg zg : ℝ) : ℝ × ℝ :=
  (a * pg * (1 / Real.sqrt (pg ^ 2 + zg ^ 2)),
   b * zg * (1 / Real.sqrt (pg ^ 2 + zg ^ 2)))

/-- Written from the spec's words (section 4.5): the closed-form forward
conversion with `e² = 1 − (b/a)²`, `N = a/sqrt(1 − e²·sin²(lat))`,
`x = (N+h)·cos(lat)·cos(lon)`, `y = (N+h)·cos(lat)·sin(lon)`,
`z = ((1−e²)·N + h)·sin(lat)`, angles in degrees. -/
def forwardSpec (lat lon h a b : ℝ) : ℝ × ℝ × ℝ :=
  let es := 1 - (b / a) ^ 2
  let N := a / Real.sqrt (1 - es * Real.sin (lat * (Real.pi / 180)) ^ 2)
  ((N + h) * Real.cos (lat * (Real.pi / 180)) * Real.cos (lon * (Real.pi / 180)),
   (N + h) * Real.cos (lat * (Real.pi / 180)) * Real.sin (lon * (Real.pi / 180)),
   ((1 - es) * N + h) * Real.sin (lat * (Real.pi / 180)))

/-- Claim C7: for every geodetic input in degrees and every ellipsoid `(a, b)`,
`llhxyz` returns exactly the spec's closed form
`x = (N+h)·cos(lat)·cos(lon)`, `y = (N+h)·cos(lat)·sin(lon)`,
`z = ((1−e²)·N + h)·sin(lat)` with `e² = 1 − (b/a)²` and
`N = a/sqrt(1 − e²·sin²(lat))`.  The function is total (no iteration, no
failure path). -/
theorem llhxyz_eq_forwardSpec (lat lon h a b : ℝ) :
    llhxyz lat lon h a b = forwardSpec lat lon h a b := by
  simp only [llhxyz, forwardSpec, Nrad, e2]

/-- Claim C2: `xyzllh` reduces the input to the meridian-plane coordinates
`(sqrt(x*x+y*y), z)` and invokes the abstract root finder on exactly the
spec's residual `(f1, f2)`, supplying exactly the spec's Jacobian, starting
from exactly the spec's radially scaled initial guess. -/
theorem xyzllh_solver_arguments (s : Solver) (x y z a b : ℝ) :
    xyzllh s x y z a b =
      xyzllhFromOut
        (s (fun v => (f1Spec a b (Real.sqrt (x * x + y * y)) z v.1 v.2,
                      f2Spec a b v.1 v.2))
           (fun v => jacSpec a b (Real.sqrt (x * x + y * y)) z v.1 v.2)
           (startSpec a b (Real.sqrt (x * x + y * y)) z))
        x y z a b := by
  have hres : residFun a b (pG x y) z =
      fun v => (f1Spec a b (Real.sqrt (x * x + y * y)) z v.1 v.2,
                f2Spec a b v.1 v.2) := by
    funext v
    simp only [residFun, f1Spec, f2Spec, pG]
    rw [Prod.mk.injEq]
    exact ⟨by ring, by ring⟩
  have hjac : jacFun a b (pG x y) z =
      fun v => jacSpec a b (Real.sqrt (x * x + y * y)) z v.1 v.2 := by
    funext v
    simp only [jacFun, jacSpec, pG]
  have hstart : startPoint a b (pG x y) z =
      startSpec a b (Real.sqrt (x * x + y * y)) z := by
    simp only [startPoint, startSpec, pG]
    have harg : Real.sqrt (x * x + y * y) * Real.sqrt (x * x + y * y) + z * z =
        Real.sqrt (x * x + y * y) ^ 2 + z ^ 2 := by ring
    rw [harg]
  rw [xyzllh, hres, hjac, hstart]

/-- Claim C3: for `p_E ≠ 0`, `step3` returns latitude
`arctan(H²·z_E/p_E)·(180/π)`, a height whose magnitude is the meridian-plane
distance `sqrt((p_E−p_G)² + (z_E−z_G)²)`, and the height is negative exactly
when `p_G + |z_G| < p_E + |z_E|`. -/
theorem step3_postconditions (H pE zE pg zg : ℝ) (hpE : pE ≠ 0) :
    (step3 H pE zE pg zg).1 = Real.arctan (H * H * zE / pE) * (180 / Real.pi) ∧
    |(step3 H pE zE pg zg).2| = Real.sqrt ((pE - pg) ^ 2 + (zE - zg) ^ 2) ∧
    ((step3 H pE zE pg zg).2 < 0 ↔ pg + |zg| < pE + |zE|) := by
  refine ⟨rfl, ?_, ?_⟩
  · simp only [step3]
    by_cases hc : pg + |zg| < pE + |zE|
    · simp only [if_pos hc, abs_neg]
      exact abs_of_nonneg (Real.sqrt_nonneg _)
    · simp only [if_neg hc]
      exact abs_of_nonneg (Real.sqrt_nonneg _)
  · simp only [step3]
    by_cases hc : pg + |zg| < pE + |zE|
    · rw [if_pos hc]
      constructor
      · intro _
        exact hc
      · intro _
        have hpos : 0 < (pE - pg) ^ 2 + (zE - zg) ^ 2 := by
          rcases eq_or_ne pE pg with he | hne
          · rcases eq_or_ne zE zg with he2 | hne2
            · exfalso
              rw [he, he2] at hc
              exact lt_irrefl _ hc
            · have h2 : 0 < (zE - zg) ^ 2 :=
                sq_pos_of_ne_zero (sub_ne_zero.mpr hne2)
              nlinarith [sq_nonneg (pE - pg)]
          · have h1 : 0 < (pE - pg) ^ 2 :=
              sq_pos_of_ne_zero (sub_ne_zero.mpr hne)
            nlinarith [sq_nonneg (zE - zg)]
        have hs := Real.sqrt_pos.mpr hpos
        linarith
    · rw [if_neg hc]
      constructor
      · intro hlt
        exact absurd hlt (not_lt.mpr (Real.sqrt_nonneg _))
      · intro hcc
        exact absurd hcc hc

/-- Witness for C3 at the concrete input `H = 1`, `(p_E, z_E) = (1, 0)`,
`(p_G, z_G) = (0, 0)`. -/
theorem step3_postconditions_witness :
    (step3 1 1 0 0 0).1 = Real.arctan (1 * 1 * 0 / 1) * (180 / Real.pi) ∧
    |(step3 1 1 0 0 0).2| = Real.sqrt ((1 - 0) ^ 2 + (0 - 0) ^ 2) ∧
    ((step3 1 1 0 0 0).2 < 0 ↔ (0 : ℝ) + |(0 : ℝ)| < 1 + |(0 : ℝ)|) :=
  step3_postconditions 1 1 0 0 0 (by norm_num)

/-- Claim C4, amended: `xyzllh` never consults the solver's convergence flag —
the result is identical whatever the flag — and always returns the iteration
count with the solution.  There is no `ConvergenceError` in the code. -/
theorem xyzllh_ignores_convergence_flag (p q : ℝ) (n : ℕ) (flag : Bool)
    (x y z a b : ℝ) :
    xyzllhFromOut ⟨p, q, flag, n⟩ x y z a b =
      xyzllhFromOut ⟨p, q, true, n⟩ x y z a b ∧
    (xyzllhFromOut ⟨p, q, flag, n⟩ x y z a b).2.2.2 = n :=
  ⟨rfl, rfl⟩

/-- Counterexample to claim C4 as stated: at the concrete input `(1, 2, 3)`
with a solver that reports non-convergence (`success = false`, final iterate
`(1, 1)` after 3 evaluations), the conversion does not fail; it returns
exactly the same successful 4-tuple as for a converged solve, with iteration
count 3. -/
theorem xyzllh_no_convergence_error :
    xyzllhFromOut ⟨1, 1, false, 3⟩ 1 2 3 6378 6356 =
      xyzllhFromOut ⟨1, 1, true, 3⟩ 1 2 3 6378 6356 ∧
    (xyzllhFromOut ⟨1, 1, false, 3⟩ 1 2 3 6378 6356).2.2.2 = 3 :=
  ⟨rfl, rfl⟩

/-- Models an IEEE-754 double as produced by numpy arithmetic in the Python
code: a finite real, a signed infinity, or NaN.  Used only for the claims that
are specifically about division by zero in the source (`x = y = 0`,
`p_G = z_G = 0`, `p_E = 0`, and the negative x-axis). -/
inductive FloatVal : Type
  | real (u : ℝ)
  | pinf
  | ninf
  | nan

namespace FloatVal

/-- IEEE division as numpy performs it (with a warning, not an exception):
finite/finite is real division when the denominator is nonzero; `u/0` with
`u ≠ 0` is a signed infinity (the zeros appearing in the source are +0);
`0/0` is NaN; NaN propagates. -/
def fdiv : FloatVal → FloatVal → FloatVal
  | real u, real v =>
      if v ≠ 0 then real (u / v)
      else if 0 < u then pinf
      else if u < 0 then ninf
      else nan
  | real _, pinf => real 0
  | real _, ninf => real 0
  | pinf, real v => if 0 ≤ v then pinf else ninf
  | ninf, real v => if 0 ≤ v then ninf else pinf
  | pinf, pinf => nan
  | pinf, ninf => nan
  | ninf, pinf => nan
  | ninf, ninf => nan
  | nan, _ => nan
  | _, nan => nan

/-- IEEE addition; `+inf + (-inf)` is NaN, NaN propagates. -/
def fadd : FloatVal → FloatVal → FloatVal
  | real u, real v => real (u + v)
  | real _, pinf => pinf
  | pinf, real _ => pinf
  | real _, ninf => ninf
  | ninf, real _ => ninf
  | pinf, pinf => pinf
  | ninf, ninf => ninf
  | pinf, ninf => nan
  | ninf, pinf => nan
  | nan, _ => nan
  | _, nan => nan

/-- IEEE multiplication; `0 * inf` is NaN, NaN propagates. -/
def fmul : FloatVal → FloatVal → FloatVal
  | real u, real v => real (u * v)
  | real u, pinf => if 0 < u then pinf else if u < 0 then ninf else nan
  | pinf, real u => if 0 < u then pinf else if u < 0 then ninf else nan
  | real u, ninf => if 0 < u then ninf else if u < 0 then pinf else nan
  | ninf, real u => if 0 < u then ninf else if u < 0 then pinf else nan
  | pinf, pinf => pinf
  | ninf, ninf => pinf
  | pinf, ninf => ninf
  | ninf, pinf => ninf
  | nan, _ => nan
  | _, nan => nan

/-- IEEE square root as `np.sqrt` computes it: NaN on negative finite input,
`+inf` at `+inf`, NaN propagates. -/
def fsqrt : FloatVal → FloatVal
  | real u => if u < 0 then nan else real (Real.sqrt u)
  | pinf => pinf
  | ninf => nan
  | nan => nan

/-- IEEE arctangent as `np.arctan` computes it: the limits `±π/2` at the
infinities, NaN propagates. -/
def farctan : FloatVal → FloatVal
  | real u => real (Real.arctan u)
  | pinf => real (Real.pi / 2)
  | ninf => real (-(Real.pi / 2))
  | nan => nan

end FloatVal

/-- Embeds the latitude computation of `step3` (lines 24-25) under IEEE
semantics: `arctan(H*H*z_E/p_E) * (180/pi)`. -/
def latDegF (H pE zE : ℝ) : FloatVal :=
  FloatVal.fmul
    (FloatVal.farctan (FloatVal.fdiv (FloatVal.real (H * H * zE))
      (FloatVal.real pE)))
    (FloatVal.real (180 / Real.pi))

/-- Embeds `lambda_1` (line 48) under IEEE semantics:
`arctan(y/x) * (180/pi)`. -/
def lambda1F (x y : ℝ) : FloatVal :=
  FloatVal.fmul (FloatVal.farctan (FloatVal.fdiv (FloatVal.real y)
    (FloatVal.real x))) (FloatVal.real (180 / Real.pi))

/-- Embeds `lambda_2` (lines 50-51) under IEEE semantics:
`2 * arctan(y/(x+w)) * (180/pi)` with `w = sqrt(x*x+y*y)`. -/
def lambda2F (x y : ℝ) : FloatVal :=
  FloatVal.fmul
    (FloatVal.fmul (FloatVal.real 2)
      (FloatVal.farctan (FloatVal.fdiv (FloatVal.real y)
        (FloatVal.fadd (FloatVal.real x)
          (FloatVal.fsqrt (FloatVal.real (x * x + y * y)))))))
    (FloatVal.real (180 / Real.pi))

/-- Embeds the initial-guess scale `r = 1/np.sqrt(p_G*p_G + z_G*z_G)`
(line 81) under IEEE semantics. -/
def startScaleF (pg zg : ℝ) : FloatVal :=
  FloatVal.fdiv (FloatVal.real 1)
    (FloatVal.fsqrt (FloatVal.real (pg * pg + zg * zg)))

/-- Models the observable effects of one `xyzllh` call: the returned tuple,
the final value of the process-global counter `iters`, and the list of values
printed unconditionally during the call. -/
structure EffResult where
  ret : ℝ × ℝ × ℝ × ℕ
  itersGlobal : ℕ
  printed : List (ℝ × ℝ)

/-- Embeds the effects of `xyzllh` (lines 45, 68, 85-95): line 45 resets the
process-global counter `iters` to 0, discarding its previous value `g0`; each
of the solver's `out.nfev` evaluations of `fun` increments the global
(line 68); line 86 unconditionally prints the solver root.  The returned
iteration count is the final value of the global. -/
def xyzllhEff (out : SolverOut) (g0 : ℕ) (x y z a b : ℝ) : EffResult :=
  let g1 : ℕ := 0
  let g2 := g1 + out.nfev
  { ret := xyzllhFromOut out x y z a b
    itersGlobal := g2
    printed := [(out.x1, out.x2)] }

/-- Claim C9, amended: one `xyzllh` call prints the solver root
unconditionally (I/O during computation) and accumulates the iteration count
in the process-global counter `iters`, which it resets to 0 at the start of
the call; because of the reset the result does not depend on the global's
prior value, and the count is also returned explicitly in the tuple. -/
theorem xyzllh_effects (out : SolverOut) (g0 g1 : ℕ) (x y z a b : ℝ) :
    xyzllhEff out g0 x y z a b = xyzllhEff out g1 x y z a b ∧
    (xyzllhEff out g0 x y z a b).itersGlobal = out.nfev ∧
    (xyzllhEff out g0 x y z a b).printed = [(out.x1, out.x2)] ∧
    (xyzllhEff out g0 x y z a b).ret.2.2.2 = out.nfev := by
  refine ⟨rfl, ?_, rfl, rfl⟩
  simp [xyzllhEff]

/-- Counterexample to claim C9 as stated: at the concrete input `(1, 2, 3)`
with a solver performing 7 residual evaluations, the call prints the root
(its print trace is nonempty, so I/O happens during computation) and leaves
the process-global counter at 7, different from its initial value 0 (so
shared mutable state is written). -/
theorem xyzllh_effects_cex :
    (xyzllhEff ⟨1, 1, true, 7⟩ 0 1 2 3 6378 6356).printed ≠ [] ∧
    (xyzllhEff ⟨1, 1, true, 7⟩ 0 1 2 3 6378 6356).itersGlobal ≠ 0 := by
  constructor
  · simp [xyzllhEff]
  · simp [xyzllhEff]

/-- Claim C8: when the projected point lies on the polar axis (`p_E = 0`) and
`z_E ≠ 0`, the latitude computation of `step3` under IEEE semantics divides a
nonzero number by zero, `np.arctan` maps the resulting signed infinity to
`±π/2`, and the returned latitude is the finite limiting value `±90` degrees
with the sign of `z_E` — no infinity or NaN reaches the caller. -/
theorem step3_latitude_polar (H zE : ℝ) (hH : 0 < H) (hzE : zE ≠ 0) :
    latDegF H 0 zE = FloatVal.real (if 0 < zE then 90 else -90) := by
  have hpi := Real.pi_ne_zero
  have h90 : Real.pi / 2 * (180 / Real.pi) = 90 := by
    field_simp
    ring
  rcases hzE.lt_or_lt with hneg | hpos
  · have hm : H * H * zE < 0 := by nlinarith [mul_pos hH hH]
    rw [if_neg (not_lt.mpr hneg.le)]
    simp only [latDegF, FloatVal.fdiv, if_neg (not_not_intro rfl),
      if_neg (not_lt.mpr hm.le), if_pos hm, FloatVal.farctan, FloatVal.fmul,
      FloatVal.real.injEq]
    field_simp
    ring
  · have hm : 0 < H * H * zE := by nlinarith [mul_pos hH hH]
    rw [if_pos hpos]
    simp only [latDegF, FloatVal.fdiv, if_neg (not_not_intro rfl),
      if_pos hm, FloatVal.farctan, FloatVal.fmul, FloatVal.real.injEq]
    exact h90

/-- Witness for C8 at the concrete input `H = 2`, `p_E = 0`, `z_E = 1`. -/
theorem step3_latitude_polar_witness :
    latDegF 2 0 1 = FloatVal.real (if (0 : ℝ) < 1 then 90 else -90) :=
  step3_latitude_polar 2 1 (by norm_num) (by norm_num)

/-- Claim C10: for a point on the negative x-axis (`y = 0`, `x < 0`), the
half-angle longitude denominator `x + w` with `w = sqrt(x*x+y*y)` is exactly
0, the quotient is `0/0`, and under IEEE semantics the longitude returned by
the conversion is NaN rather than `±180`, with no error signalled. -/
theorem lambda2_negative_x_axis (x y : ℝ) (hx : x < 0) (hy : y = 0) :
    x + Real.sqrt (x * x + y * y) = 0 ∧ lambda2F x y = FloatVal.nan := by
  subst hy
  have hsq : Real.sqrt (x * x + 0 * 0) = -x := by
    rw [mul_zero, add_zero, Real.sqrt_mul_self_eq_abs, abs_of_neg hx]
  constructor
  · rw [hsq]
    ring
  · have hnn : ¬(x * x + 0 * 0 < 0) := by nlinarith
    simp only [lambda2F, FloatVal.fsqrt, if_neg hnn, hsq, FloatVal.fadd,
      add_neg_cancel, FloatVal.fdiv]
    simp [FloatVal.farctan, FloatVal.fmul]

/-- Witness for C10 at the concrete input `(x, y) = (-1, 0)`. -/
theorem lambda2_negative_x_axis_witness :
    (-1 : ℝ) + Real.sqrt (-1 * -1 + 0 * 0) = 0 ∧
    lambda2F (-1) 0 = FloatVal.nan :=
  lambda2_negative_x_axis (-1) 0 (by norm_num) rfl

/-- Claim C5, amended: the conversion never raises on degenerate inputs.  At
`x = y = 0` both longitude formulas evaluate `0/0` to NaN under IEEE
semantics, at `p_G = z_G = 0` the initial-guess scale `1/sqrt(0)` evaluates to
`+inf`, and the call still returns an ordinary tuple carrying the iteration
count; there is no `DegenerateInputError` in the code. -/
theorem degenerate_inputs_return (z p q a b : ℝ) (n : ℕ) :
    lambda1F 0 0 = FloatVal.nan ∧ lambda2F 0 0 = FloatVal.nan ∧
    startScaleF 0 0 = FloatVal.pinf ∧
    (xyzllhFromOut ⟨p, q, true, n⟩ 0 0 z a b).2.2.2 = n := by
  refine ⟨?_, ?_, ?_, rfl⟩
  · simp only [lambda1F, FloatVal.fdiv, FloatVal.farctan, FloatVal.fmul]
    norm_num
  · simp only [lambda2F, FloatVal.fsqrt, FloatVal.fadd, FloatVal.fdiv,
      FloatVal.farctan, FloatVal.fmul]
    norm_num [Real.sqrt_zero]
  · simp only [startScaleF, FloatVal.fsqrt, FloatVal.fdiv]
    norm_num [Real.sqrt_zero]

/-- Counterexample to claim C5 as stated: at the concrete degenerate input
`(0, 0, 5)` no `DegenerateInputError` is raised — the conversion returns an
ordinary successful tuple (iteration count 2 here) while, under IEEE
semantics, the longitude it computes is NaN and the initial-guess scale at
`p_G = z_G = 0` is `+inf`, both propagated silently. -/
theorem degenerate_inputs_cex :
    lambda2F 0 0 = FloatVal.nan ∧ startScaleF 0 0 = FloatVal.pinf ∧
    (xyzllhFromOut ⟨1, 1, true, 2⟩ 0 0 5 6378 6356).2.2.2 = 2 := by
  refine ⟨?_, ?_, rfl⟩
  · simp only [lambda2F, FloatVal.fsqrt, FloatVal.fadd, FloatVal.fdiv,
      FloatVal.farctan, FloatVal.fmul]
    norm_num [Real.sqrt_zero]
  · simp only [startScaleF, FloatVal.fsqrt, FloatVal.fdiv]
    norm_num [Real.sqrt_zero]

/-- Claim C6, amended: neither public operation validates the ellipsoid.  For
any malformed parameters with `a < b` (and `0 < a`), `llhxyz` computes its
closed form anyway — at `(lat, lon, h) = (0, 0, 0)` it returns `(a, 0, 0)` —
and `xyzllh` likewise returns an ordinary tuple; there is no
`InvalidParameterError` in the code. -/
theorem no_parameter_validation (a b : ℝ) (hab : a < b) (ha : 0 < a) :
    llhxyz 0 0 0 a b = (a, 0, 0) ∧
    (xyzllhFromOut ⟨1, 1, true, 4⟩ 1 0 0 a b).2.2.2 = 4 := by
  refine ⟨?_, rfl⟩
  simp only [llhxyz, Nrad, e2, zero_mul, Real.sin_zero, Real.cos_zero]
  norm_num

/-- Witness for the amended C6 at the concrete malformed ellipsoid
`a = 1 < b = 2`. -/
theorem no_parameter_validation_witness :
    llhxyz 0 0 0 1 2 = (1, 0, 0) ∧
    (xyzllhFromOut ⟨1, 1, true, 4⟩ 1 0 0 1 2).2.2.2 = 4 :=
  no_parameter_validation 1 2 (by norm_num) (by norm_num)

/-- Helper for the round-trip claim: the half-angle longitude formula of
line 51 recovers the longitude exactly on points
`(A·cos(lon·π/180), A·sin(lon·π/180))` with `A > 0` and
`lon ∈ (-180, 180)` degrees. -/
theorem lambda2R_half_angle (lon A : ℝ) (hA : 0 < A)
    (h1 : -180 < lon) (h2 : lon < 180) :
    lambda2R (A * Real.cos (lon * (Real.pi / 180)))
      (A * Real.sin (lon * (Real.pi / 180))) = lon := by
  have hπ : 0 < Real.pi := Real.pi_pos
  have hc : (0 : ℝ) < Real.pi / 180 := by positivity
  have hl1 : -Real.pi < lon * (Real.pi / 180) := by
    have hmul := mul_lt_mul_of_pos_right h1 hc
    have he : (-180 : ℝ) * (Real.pi / 180) = -Real.pi := by ring
    linarith
  have hl2 : lon * (Real.pi / 180) < Real.pi := by
    have hmul := mul_lt_mul_of_pos_right h2 hc
    have he : (180 : ℝ) * (Real.pi / 180) = Real.pi := by ring
    linarith
  set lam := lon * (Real.pi / 180) with hlam
  have hu1 : -(Real.pi / 2) < lam / 2 := by linarith
  have hu2 : lam / 2 < Real.pi / 2 := by linarith
  have hcu : 0 < Real.cos (lam / 2) :=
    Real.cos_pos_of_mem_Ioo (Set.mem_Ioo.mpr ⟨hu1, hu2⟩)
  have h2u : 2 * (lam / 2) = lam := by ring
  have hsin : Real.sin lam = 2 * Real.sin (lam / 2) * Real.cos (lam / 2) := by
    have hs := Real.sin_two_mul (lam / 2)
    rw [h2u] at hs
    exact hs
  have hden : A * Real.cos lam + A = A * (2 * Real.cos (lam / 2) ^ 2) := by
    have hcc := Real.cos_two_mul (lam / 2)
    rw [h2u] at hcc
    rw [hcc]
    ring
  have hw : A * Real.cos lam * (A * Real.cos lam) +
      A * Real.sin lam * (A * Real.sin lam) = A ^ 2 := by
    linear_combination A ^ 2 * Real.sin_sq_add_cos_sq lam
  have hfrac : A * (2 * Real.sin (lam / 2) * Real.cos (lam / 2)) /
      (A * (2 * Real.cos (lam / 2) ^ 2)) = Real.tan (lam / 2) := by
    rw [Real.tan_eq_sin_div_cos]
    field_simp
    ring
  simp only [lambda2R]
  rw [hw, Real.sqrt_sq hA.le, hden, hsin, hfrac, Real.arctan_tan hu1 hu2,
    hlam]
  field_simp
  ring

/-- Claim C1: round trip.  For a valid ellipsoid `0 < b ≤ a`, latitude
strictly between the poles, longitude in `(-180, 180)` and height above
`-(1-e²)·N` (so the point stays outside the evolute), the Cartesian point
produced by `llhxyz` is mapped back exactly: the half-angle longitude formula
returns `lon`, and there is an exact zero `(p_E, z_E)` of the solver residual
(a converged solve with zero residual, namely the orthogonal projection) at
which `step3` returns exactly `(lat, h)`.  Exact equality is in particular
within the 1e-6 tolerance of the claim. -/
theorem roundtrip_exact (a b lat lon h x y z : ℝ)
    (hb : 0 < b) (hba : b ≤ a)
    (hlat1 : -90 < lat) (hlat2 : lat < 90)
    (hlon1 : -180 < lon) (hlon2 : lon < 180)
    (hh : -((1 - e2 a b) * Nrad a b lat) < h)
    (hxyz : llhxyz lat lon h a b = (x, y, z)) :
    lambda2R x y = lon ∧
    ∃ pE zE, residFun a b (pG x y) z (pE, zE) = (0, 0) ∧
      step3 (a / b) pE zE (pG x y) z = (lat, h) := by
  have ha : 0 < a := lt_of_lt_of_le hb hba
  have hπ : 0 < Real.pi := Real.pi_pos
  simp only [llhxyz] at hxyz
  rw [Prod.mk.injEq, Prod.mk.injEq] at hxyz
  obtain ⟨hxe, hye, hze⟩ := hxyz
  -- eccentricity bounds
  have hq : 1 - e2 a b = (b / a) ^ 2 := by
    simp only [e2]
    ring
  have hba2 : 0 < (b / a) ^ 2 := by positivity
  have he2lt : e2 a b < 1 := by
    simp only [e2]
    linarith
  have he2ge : 0 ≤ e2 a b := by
    have hba1 : b / a ≤ 1 := (div_le_one ha).mpr hba
    have hba0 : 0 < b / a := by positivity
    have hsq1 : (b / a) ^ 2 ≤ 1 := by nlinarith
    simp only [e2]
    linarith
  have h1me2 : 0 < 1 - e2 a b := by
    rw [hq]
    exact hba2
  -- latitude in radians lies strictly between the poles
  have hc180 : (0 : ℝ) < Real.pi / 180 := by positivity
  have hphi1 : -(Real.pi / 2) < lat * (Real.pi / 180) := by
    have hmul := mul_lt_mul_of_pos_right hlat1 hc180
    have he : (-90 : ℝ) * (Real.pi / 180) = -(Real.pi / 2) := by ring
    linarith
  have hphi2 : lat * (Real.pi / 180) < Real.pi / 2 := by
    have hmul := mul_lt_mul_of_pos_right hlat2 hc180
    have he : (90 : ℝ) * (Real.pi / 180) = Real.pi / 2 := by ring
    linarith
  have hcos : 0 < Real.cos (lat * (Real.pi / 180)) :=
    Real.cos_pos_of_mem_Ioo (Set.mem_Ioo.mpr ⟨hphi1, hphi2⟩)
  -- the square-root argument of N is positive
  have hsin2 : Real.sin (lat * (Real.pi / 180)) ^ 2 ≤ 1 :=
    Real.sin_sq_le_one _
  have ht : 0 < 1 - e2 a b * Real.sin (lat * (Real.pi / 180)) ^ 2 := by
    nlinarith [mul_le_mul_of_nonneg_left hsin2 he2ge]
  have hs0 : 0 < Real.sqrt (1 - e2 a b * Real.sin (lat * (Real.pi / 180)) ^ 2) :=
    Real.sqrt_pos.mpr ht
  have hs2 : Real.sqrt (1 - e2 a b * Real.sin (lat * (Real.pi / 180)) ^ 2) ^ 2 =
      1 - e2 a b * Real.sin (lat * (Real.pi / 180)) ^ 2 :=
    Real.sq_sqrt ht.le
  have hN0 : 0 < Nrad a b lat := by
    rw [Nrad]
    exact div_pos ha hs0
  have hNt : Nrad a b lat ^ 2 *
      (1 - e2 a b * Real.sin (lat * (Real.pi / 180)) ^ 2) = a ^ 2 := by
    rw [Nrad, div_pow, hs2, div_mul_cancel₀ _ (ne_of_gt ht)]
  have htcs : 1 - e2 a b * Real.sin (lat * (Real.pi / 180)) ^ 2 =
      Real.cos (lat * (Real.pi / 180)) ^ 2 +
        (b / a) ^ 2 * Real.sin (lat * (Real.pi / 180)) ^ 2 := by
    have hpy := Real.sin_sq_add_cos_sq (lat * (Real.pi / 180))
    simp only [e2]
    linear_combination -hpy
  have hN2t : Nrad a b lat ^ 2 *
      (Real.cos (lat * (Real.pi / 180)) ^ 2 +
        (b / a) ^ 2 * Real.sin (lat * (Real.pi / 180)) ^ 2) = a ^ 2 := by
    rw [← htcs]
    exact hNt
  -- height bounds
  have hzc : 0 < (1 - e2 a b) * Nrad a b lat + h := by linarith
  have hNh : 0 < Nrad a b lat + h := by
    have hsplit : (1 - e2 a b) * Nrad a b lat =
        Nrad a b lat - e2 a b * Nrad a b lat := by ring
    have hprod : 0 ≤ e2 a b * Nrad a b lat := mul_nonneg he2ge hN0.le
    linarith
  have hA : 0 < (Nrad a b lat + h) * Real.cos (lat * (Real.pi / 180)) :=
    mul_pos hNh hcos
  -- the meridian radial coordinate of the forward image
  have hpg : pG x y = (Nrad a b lat + h) * Real.cos (lat * (Real.pi / 180)) := by
    rw [pG, ← hxe, ← hye]
    have hxy : (Nrad a b lat + h) * Real.cos (lat * (Real.pi / 180)) *
          Real.cos (lon * (Real.pi / 180)) *
          ((Nrad a b lat + h) * Real.cos (lat * (Real.pi / 180)) *
            Real.cos (lon * (Real.pi / 180))) +
        (Nrad a b lat + h) * Real.cos (lat * (Real.pi / 180)) *
          Real.sin (lon * (Real.pi / 180)) *
          ((Nrad a b lat + h) * Real.cos (lat * (Real.pi / 180)) *
            Real.sin (lon * (Real.pi / 180))) =
        ((Nrad a b lat + h) * Real.cos (lat * (Real.pi / 180))) ^ 2 := by
      linear_combination ((Nrad a b lat + h) * Real.cos (lat * (Real.pi / 180))) ^ 2 *
        Real.sin_sq_add_cos_sq (lon * (Real.pi / 180))
    rw [hxy, Real.sqrt_sq hA.le]
  -- longitude recovery
  have hlon : lambda2R x y = lon := by
    rw [← hxe, ← hye]
    exact lambda2R_half_angle lon _ hA hlon1 hlon2
  -- from here on, treat the trig values and N as atoms
  set N := Nrad a b lat with hNdef
  set c := Real.cos (lat * (Real.pi / 180)) with hcdef
  set s := Real.sin (lat * (Real.pi / 180)) with hsdef
  have ha' : a ≠ 0 := ha.ne'
  have hb' : b ≠ 0 := hb.ne'
  have hN' : N ≠ 0 := hN0.ne'
  have hc' : c ≠ 0 := hcos.ne'
  have hpy : s ^ 2 + c ^ 2 = 1 := by
    rw [hsdef, hcdef]
    exact Real.sin_sq_add_cos_sq _
  have hkey : N ^ 2 * (a ^ 2 * c ^ 2 + b ^ 2 * s ^ 2) = a ^ 4 := by
    have hexp : a ^ 2 * c ^ 2 + b ^ 2 * s ^ 2 =
        a ^ 2 * (c ^ 2 + (b / a) ^ 2 * s ^ 2) := by
      field_simp
      ring
    calc N ^ 2 * (a ^ 2 * c ^ 2 + b ^ 2 * s ^ 2)
        = a ^ 2 * (N ^ 2 * (c ^ 2 + (b / a) ^ 2 * s ^ 2)) := by rw [hexp]; ring
      _ = a ^ 2 * a ^ 2 := by rw [hN2t]
      _ = a ^ 4 := by ring
  refine ⟨hlon, N * c, (1 - e2 a b) * N * s, ?_, ?_⟩
  · -- the orthogonal projection is an exact zero of the residual
    rw [hpg, ← hze, hq]
    simp only [residFun]
    rw [Prod.mk.injEq]
    constructor
    · field_simp
      ring
    · field_simp
      linear_combination a ^ 2 * b ^ 2 * hkey
  · -- step3 recovers latitude and height exactly
    rw [hpg, ← hze, hq]
    simp only [step3]
    rw [Prod.mk.injEq]
    constructor
    · -- latitude
      have harg : a / b * (a / b) * ((b / a) ^ 2 * N * s) / (N * c) = s / c := by
        field_simp
        ring
      have htan : Real.tan (lat * (Real.pi / 180)) = s / c := by
        rw [Real.tan_eq_sin_div_cos, ← hcdef, ← hsdef]
      rw [harg, ← htan, Real.arctan_tan hphi1 hphi2]
      field_simp
    · -- height
      have hd : (N * c - (N + h) * c) ^ 2 +
          ((b / a) ^ 2 * N * s - ((b / a) ^ 2 * N + h) * s) ^ 2 = h ^ 2 := by
        linear_combination h ^ 2 * hpy
      rw [hd, Real.sqrt_sq_eq_abs]
      have hzc' : 0 < (b / a) ^ 2 * N + h := by
        rw [← hq]
        exact hzc
      have habs1 : |((b / a) ^ 2 * N + h) * s| =
          ((b / a) ^ 2 * N + h) * |s| := by
        rw [abs_mul, abs_of_pos hzc']
      have habs2 : |(b / a) ^ 2 * N * s| = (b / a) ^ 2 * N * |s| := by
        rw [abs_mul, abs_of_pos (mul_pos hba2 hN0)]
      have habs0 : 0 ≤ |s| := abs_nonneg _
      have hcs : 0 < c + |s| := by linarith
      have hexp : (N + h) * c + ((b / a) ^ 2 * N + h) * |s| =
          N * c + (b / a) ^ 2 * N * |s| + h * (c + |s|) := by ring
      by_cases hsign : h < 0
      · have hcond : (N + h) * c + |((b / a) ^ 2 * N + h) * s| <
            N * c + |(b / a) ^ 2 * N * s| := by
          rw [habs1, habs2, hexp]
          have hlt : h * (c + |s|) < 0 := mul_neg_of_neg_of_pos hsign hcs
          linarith
        rw [if_pos hcond, abs_of_neg hsign]
        ring
      · push_neg at hsign
        have hcond : ¬((N + h) * c + |((b / a) ^ 2 * N + h) * s| <
            N * c + |(b / a) ^ 2 * N * s|) := by
          rw [habs1, habs2, hexp, not_lt]
          have hge : 0 ≤ h * (c + |s|) := mul_nonneg hsign hcs.le
          linarith
        rw [if_neg hcond]
        exact abs_of_nonneg hsign

/-- Witness for C1 at the concrete input `lat = lon = h = 0` on the default
ellipsoid `a = 6378`, `b = 6356`, whose forward image is `(6378, 0, 0)`. -/
theorem roundtrip_exact_witness :
    lambda2R 6378 0 = 0 ∧
    ∃ pE zE, residFun 6378 6356 (pG 6378 0) 0 (pE, zE) = (0, 0) ∧
      step3 (6378 / 6356) pE zE (pG 6378 0) 0 = (0, 0) :=
  roundtrip_exact 6378 6356 0 0 0 6378 0 0 (by norm_num) (by norm_num)
    (by norm_num) (by norm_num) (by norm_num) (by norm_num)
    (by norm_num [e2, Nrad, zero_mul, Real.sin_zero, Real.sqrt_one])
    (by norm_num [llhxyz, Nrad, e2, zero_mul, Real.sin_zero, Real.cos_zero,
      Real.sqrt_one])

/-- Counterexample to claim C6 as stated: with the malformed ellipsoid
`a = 1 < b = 2`, `geodeticToCartesian` at `(0, 0, 0)` does not fail with
`InvalidParameterError`; it returns the ordinary value `(1, 0, 0)`, and
`cartesianToGeodetic` likewise returns an ordinary tuple. -/
theorem no_parameter_validation_cex :
    llhxyz 0 0 0 1 2 = (1, 0, 0) ∧
    (xyzllhFromOut ⟨1, 1, true, 4⟩ 1 0 0 1 2).2.2.2 = 4 := by
  refine ⟨?_, rfl⟩
  simp only [llhxyz, Nrad, e2, zero_mul, Real.sin_zero, Real.cos_zero]
  norm_num

end

end GeoCart
